import Mathlib

/-!
Verification of the CloudMart tagging-compliance and remediation engine
(`src/activity.py`) against its natural-language specification.

The pandas DataFrame is embedded shallowly: a table is a list of rows, a row
an association list from column name to cell, and a cell is either absent
(pandas NA/NaN), a string, or a rational number (costs; `ℚ` stands in for
Python floats, which is exact on the decimal literals the loader coerces).
Row-wise source computations (`df.apply`, `.loc` masked assignment, `merge`)
become list maps, filters and folds over this representation.
-/

namespace CloudMart

/-- A pandas cell: absent (NA/NaN), a string, or a number. -/
inductive Cell where
  | na : Cell
  | str : String → Cell
  | num : ℚ → Cell
deriving DecidableEq, Repr

/-- A DataFrame row: association list from column name to cell.
Looking up a column that is not present behaves like `row.get(c)` in the
source, i.e. yields an absent value. -/
abbrev Row := List (String × Cell)

/-- A DataFrame: list of rows. -/
abbrev Table := List Row

/-- Column lookup, mirroring `row.get(c)`: the first entry with the given
column name, absent (`Cell.na`, for which `pd.isna` holds) when the column
does not exist. -/
def getCell (r : Row) (c : String) : Cell :=
  match r.find? (fun p => p.1 = c) with
  | some p => p.2
  | none => Cell.na

/-- Column assignment on one row, mirroring a masked column write
(`df.loc[mask, c] = v` restricted to this row, or a whole-column
assignment `df[c] = ...`): overwrite the column if present, append it as a
new column otherwise. -/
def setField (r : Row) (c : String) (v : Cell) : Row :=
  if r.any (fun p => p.1 = c) then
    r.map (fun p => if p.1 = c then (c, v) else p)
  else r ++ [(c, v)]

/-- Pandas elementwise equality (`==`): NA compares unequal to everything,
including NA itself; values of different kinds compare unequal. -/
def cellEq : Cell → Cell → Bool
  | Cell.str a, Cell.str b => a = b
  | Cell.num a, Cell.num b => a = b
  | _, _ => false

/-- Pandas elementwise inequality (`!=`), the negation of `==`:
in particular `NA != x` is true for every `x`. -/
def cellNeq (a b : Cell) : Bool := !(cellEq a b)

/-- The six designated tag fields (`TAG_FIELDS` in the source). -/
def TAG_FIELDS : List String :=
  ["Department", "Project", "Environment", "Owner", "CostCenter", "CreatedBy"]

/-- Tag-completeness score of a row (`completeness_score` in the source):
the number of the six designated tag fields that are present. -/
def completeness_score (r : Row) : ℕ :=
  TAG_FIELDS.countP (fun f => getCell r f ≠ Cell.na)

/-- Numeric value of a cell when summing a cost column: pandas `sum`
skips NA, and the loader makes every `Cost` cell numeric. -/
def cellCost : Cell → ℚ
  | Cell.num q => q
  | _ => 0

/-- Cost of one row (`row["Cost"]`). -/
def rowCost (r : Row) : ℚ := cellCost (getCell r "Cost")

/-- Total cost of a table (`df["Cost"].sum()`). -/
def totalCost (t : Table) : ℚ := (t.map rowCost).sum

/-- Rows whose resolved status is the string "No"
(`df[df["Tagged_filled"] == "No"]`). -/
def untaggedRows (t : Table) : Table :=
  t.filter (fun r => getCell r "Tagged_filled" = Cell.str "No")

/-- Untagged cost (`df.loc[df["Tagged_filled"] == "No", "Cost"].sum()`). -/
def untaggedCost (t : Table) : ℚ := totalCost (untaggedRows t)

/-- Untagged resource count (`(df["Tagged_filled"] == "No").sum()`). -/
def untaggedCount (t : Table) : ℕ := (untaggedRows t).length

/-- Untagged cost percentage with the source's zero-division guard:
`(untagged_cost / total_cost * 100) if total_cost else 0`. -/
def untaggedCostPct (t : Table) : ℚ :=
  if totalCost t ≠ 0 then untaggedCost t / totalCost t * 100 else 0

/-- Group keys of `df.groupby("Tagged_filled", dropna=False)`: the distinct
resolved-status cells occurring in the table. `dropna=False` keeps the NA
group, and pandas groups all NA keys together, which structural equality on
`Cell` reproduces. -/
def splitKeys (t : Table) : Finset Cell :=
  (t.map (fun r => getCell r "Tagged_filled")).toFinset

/-- Cost of one group of `df.groupby("Tagged_filled", dropna=False)["Cost"].sum()`. -/
def splitVal (t : Table) (k : Cell) : ℚ :=
  totalCost (t.filter (fun r => getCell r "Tagged_filled" = k))

section Remediation

/-- An edits mapping: resource id, to list of (field, new value) pairs
(`edited_map = editable_df.set_index("ResourceID").to_dict(orient="index")`). -/
abbrev Edits := List (String × List (String × Cell))

/-- One masked assignment `remediated.loc[remediated["ResourceID"] == rid, col] = val`
restricted to a single row: the row receives the value exactly when its
`ResourceID` cell equals the (string) key under pandas `==`. -/
def applyOneEditRow (r : Row) (rid col : String) (v : Cell) : Row :=
  if cellEq (getCell r "ResourceID") (Cell.str rid) then setField r col v else r

/-- One iteration of the source's inner loop `for col, val in changes.items()`. -/
def applyOneEdit (t : Table) (rid col : String) (v : Cell) : Table :=
  t.map (fun r => applyOneEditRow r rid col v)

/-- All field assignments of one edit entry, in order. -/
def applyChanges (t : Table) (rid : String) (changes : List (String × Cell)) : Table :=
  changes.foldl (fun acc cv => applyOneEdit acc rid cv.1 cv.2) t

/-- The source's edit-application loop `for rid, changes in edited_map.items()`. -/
def applyEdits (t : Table) (edits : Edits) : Table :=
  edits.foldl (fun acc e => applyChanges acc e.1 e.2) t

/-- Row-wise view of `applyChanges`: all assignments of one edit entry
restricted to a single row. Each masked assignment only reads the row it
writes, so the table-level loop is a pointwise map (proved below). -/
def applyChangesRow (rid : String) (changes : List (String × Cell)) (r : Row) : Row :=
  changes.foldl (fun acc cv => applyOneEditRow acc rid cv.1 cv.2) r

/-- Row-wise view of the whole edit-application loop. -/
def applyEditsRow (edits : Edits) (r : Row) : Row :=
  edits.foldl (fun acc e => applyChangesRow e.1 e.2 acc) r

/-- Recompute `TagCompleteness` for every row
(`remediated["TagCompleteness"] = remediated.apply(..., axis=1)`). -/
def recomputeCompleteness (t : Table) : Table :=
  t.map (fun r => setField r "TagCompleteness" (Cell.num (completeness_score r)))

/-- The resolved-status recompute lambda of the source: "Yes" when both
`Department` and `Owner` are present, otherwise the row's current
`Tagged_filled` value when present, otherwise "No". -/
def recompTagged (r : Row) : Cell :=
  if getCell r "Department" ≠ Cell.na ∧ getCell r "Owner" ≠ Cell.na then Cell.str "Yes"
  else if getCell r "Tagged_filled" ≠ Cell.na then getCell r "Tagged_filled" else Cell.str "No"

/-- Recompute `Tagged_filled` for every row: the whole new column is computed
from the pre-assignment table, then assigned. -/
def recomputeTagged (t : Table) : Table :=
  t.map (fun r => setField r "Tagged_filled" (recompTagged r))

/-- One row of the `changed` report. -/
structure ChangedEntry where
  resourceId : Cell
  before : Cell
  after : Cell
  cost : Cell
deriving DecidableEq, Repr

/-- Pandas `merge` key matching: unlike elementwise `==`, a merge joins NA
keys to NA keys, so merge-key equality is structural equality on cells. -/
def mergeKeyEq (a b : Cell) : Bool := a = b

/-- The rows of `remediated.merge(df[["ResourceID", "Tagged_filled"]],
on="ResourceID", how="left")` produced by one left (remediated) row: one
output row per matching baseline row, in baseline order; a single
NA-`before` row when nothing matches. -/
def leftJoinRow (baseline : Table) (r : Row) : List ChangedEntry :=
  let key := getCell r "ResourceID"
  let hits := baseline.filter (fun b => mergeKeyEq (getCell b "ResourceID") key)
  if hits.isEmpty then
    [⟨key, Cell.na, getCell r "Tagged_filled", getCell r "Cost"⟩]
  else
    hits.map (fun b => ⟨key, getCell b "Tagged_filled", getCell r "Tagged_filled", getCell r "Cost"⟩)

/-- The `changed` computation: many-to-many left join of the remediated table
with the baseline's (`ResourceID`, `Tagged_filled`) columns, then keep the
rows where the after status differs (pandas `!=`) from the before status. -/
def changedOf (baseline remediated : Table) : List ChangedEntry :=
  ((remediated.map (leftJoinRow baseline)).flatten).filter
    (fun e => cellNeq e.after e.before)

/-- Result of the Apply Remediation handler. -/
structure RemediationResult where
  baseline : Table
  table : Table
  beforeUntagCost : ℚ
  afterUntagCost : ℚ
  beforeUntagCount : ℕ
  afterUntagCount : ℕ
  changed : List ChangedEntry
deriving Repr

/-- The Apply Remediation handler: copy the baseline (`remediated = df.copy()`,
a deep copy, so all writes below touch only the copy), apply the edits, then
recompute `TagCompleteness` and `Tagged_filled`, and derive the before/after
scalars and the `changed` report. -/
def apply_remediation (df : Table) (edits : Edits) : RemediationResult :=
  let remediated := recomputeTagged (recomputeCompleteness (applyEdits df edits))
  { baseline := df
    table := remediated
    beforeUntagCost := untaggedCost df
    afterUntagCost := untaggedCost remediated
    beforeUntagCount := untaggedCount df
    afterUntagCount := untaggedCount remediated
    changed := changedOf df remediated }

end Remediation

section Loader

/-- A parsed raw input frame, as handed to the post-parse part of
`load_data`: the (already whitespace-trimmed) column names and, per row, the
raw textual value of each column (`none` for an empty cell, which pandas
reads as NaN). Reading the file, stripping stray double quotes, CSV parsing
and column-name trimming are the boundary in front of this. -/
structure RawFrame where
  cols : List String
  rows : List (List (String × Option String))
deriving Repr

/-- Raw lookup of a column's textual value in a raw row. -/
def rawGet (r : List (String × Option String)) (c : String) : Option String :=
  match r.find? (fun p => p.1 = c) with
  | some p => p.2
  | none => none

/-- Digit run to a natural number accumulator. -/
def digitsToNat : List Char → ℕ → ℕ
  | [], acc => acc
  | c :: cs, acc => digitsToNat cs (acc * 10 + (c.toNat - 48))

/-- Decimal-literal parsing, embedding `pd.to_numeric` on the literals a
cost column can hold: optional sign, digits, optional fractional digits;
anything else is non-numeric (`errors="coerce"` turns it into NaN). -/
def parseNum (s : String) : Option ℚ :=
  let cs := s.data
  let signBody : ℚ × List Char :=
    match cs with
    | '-' :: rest => (-1, rest)
    | '+' :: rest => (1, rest)
    | _ => (1, cs)
  let intPart := signBody.2.takeWhile Char.isDigit
  let rest := signBody.2.dropWhile Char.isDigit
  match rest with
  | [] =>
      if intPart.isEmpty then none
      else some (signBody.1 * (digitsToNat intPart 0 : ℚ))
  | '.' :: frac =>
      if frac.all Char.isDigit && !(intPart.isEmpty && frac.isEmpty) then
        some (signBody.1 *
          ((digitsToNat intPart 0 : ℚ) + (digitsToNat frac 0 : ℚ) / (10 : ℚ) ^ frac.length))
      else none
  | _ => none

/-- Cost coercion `pd.to_numeric(col, errors="coerce").fillna(0)`: a missing
or non-numeric raw value becomes 0, a numeric literal its value. -/
def coerceCost (v : Option String) : Cell :=
  Cell.num ((v.bind parseNum).getD 0)

/-- Text normalization of one present raw value, embedding
`astype(str).str.strip().replace({"": NA, "nan": NA, "None": NA})`. -/
def normString (s : String) : Cell :=
  let t := s.trim
  if t = "" || t = "nan" || t = "None" then Cell.na else Cell.str t

/-- Text normalization of one raw cell: a missing value round-trips to
absent (`astype(str)` renders NaN as "nan", which the replace map sends
back to NA). -/
def normOpt (v : Option String) : Cell :=
  match v with
  | none => Cell.na
  | some s => normString s

/-- The final `df["AccountID"] = df["AccountID"].astype(str)`: `str(pd.NA)`
is the literal string "<NA>", so an absent account id becomes that string. -/
def accountToStr : Cell → Cell
  | Cell.na => Cell.str "<NA>"
  | Cell.str s => Cell.str s
  | Cell.num q => Cell.str (toString q)

/-- The eleven columns of the source's required-columns loop. -/
def requiredCols : List String :=
  ["AccountID", "Service", "Region", "Environment", "Tagged", "ResourceID",
   "Project", "Department", "Owner", "CostCenter", "CreatedBy"]

/-- The required-columns loop `for req in [...]: if req not in df.columns:
df[req] = pd.NA`, appending each required column missing from the input as
an all-absent column. -/
def addMissing (cols : List String) (reqs : List String) (acc : Row) : Row :=
  reqs.foldl (fun a q => if cols.contains q then a else a ++ [(q, Cell.na)]) acc

/-- The final `AccountID` string cast applied to one row. -/
def accountCast (r : Row) : Row :=
  r.map (fun p => if p.1 = "AccountID" then (p.1, accountToStr p.2) else p)

/-- Normalization of one raw row, given which column feeds `Cost`:
standardize `Cost` from `costCol` (overwriting an existing `Cost` column or
appending a new one), normalize the text columns, append the missing
required columns as all-absent, and finally string-cast `AccountID`. -/
def loadRow (cols : List String) (costCol : String) (r : List (String × Option String)) : Row :=
  let step1 : Row := cols.map (fun c =>
    if c = "Cost" then ("Cost", coerceCost (rawGet r costCol))
    else (c, normOpt (rawGet r c)))
  let withCost : Row :=
    if cols.contains "Cost" then step1
    else step1 ++ [("Cost", coerceCost (rawGet r costCol))]
  accountCast (addMissing cols requiredCols withCost)

/-- The post-parse part of `load_data`: pick the cost source column
(`MonthlyCostUSD` if present, else `Cost`, else raise), then normalize every
row. The raised `ValueError` is embedded as the error case. -/
def loadData (f : RawFrame) : Except String Table :=
  if f.cols.contains "MonthlyCostUSD" then
    Except.ok (f.rows.map (loadRow f.cols "MonthlyCostUSD"))
  else if f.cols.contains "Cost" then
    Except.ok (f.rows.map (loadRow f.cols "Cost"))
  else
    Except.error "CSV missing MonthlyCostUSD or Cost column"

/-- Column existence in a normalized row (`c in df.columns`, row-wise). -/
def hasCol (r : Row) (c : String) : Bool :=
  r.any (fun p => p.1 = c)

end Loader

section Filtering

/-- Pandas `Series.isin(xs)` on one cell: true exactly for a string cell
whose string is a member; NA is never a member. -/
def memb (c : Cell) (xs : List String) : Bool :=
  match c with
  | Cell.str s => xs.contains s
  | _ => false

/-- One of the three multiselect filters: `if sel: filtered =
filtered[filtered[col].isin(sel)]` — an empty selection leaves the table
unrestricted. -/
def oneFilter (col : String) (xs : List String) (t : Table) : Table :=
  if xs.isEmpty then t else t.filter (fun r => memb (getCell r col) xs)

/-- The source's filter block: Service, then Region, then Department. -/
def filter_by (t : Table) (ss rs ds : List String) : Table :=
  oneFilter "Department" ds (oneFilter "Region" rs (oneFilter "Service" ss t))

/-- Membership-or-unrestricted predicate of one filter. -/
def passFilter (xs : List String) (col : String) (r : Row) : Bool :=
  xs.isEmpty || memb (getCell r col) xs

end Filtering

section Examples

/-- Record "A" of the specification's walk-through scenario: untagged,
cost 100, department and owner absent. -/
def rowA : Row :=
  [("ResourceID", Cell.str "A"), ("Cost", Cell.num 100), ("Department", Cell.na),
   ("Owner", Cell.na), ("Tagged", Cell.str "No"), ("Tagged_filled", Cell.str "No")]

/-- Record "B" of the scenario: tagged, cost 50, department and owner present. -/
def rowB : Row :=
  [("ResourceID", Cell.str "B"), ("Cost", Cell.num 50), ("Department", Cell.str "Eng"),
   ("Owner", Cell.str "Alice"), ("Tagged", Cell.str "Yes"), ("Tagged_filled", Cell.str "Yes")]

/-- The scenario baseline table. -/
def scenarioTable : Table := [rowA, rowB]

/-- The scenario edit: fill department and owner of record "A". -/
def scenarioEdits : Edits :=
  [("A", [("Department", Cell.str "Eng"), ("Owner", Cell.str "Bob")])]

/-- A table with a duplicated resource id whose two records have different
resolved statuses; department and owner are present on the first record only. -/
def dupTable : Table :=
  [[("ResourceID", Cell.str "R1"), ("Tagged_filled", Cell.str "Yes"),
    ("Department", Cell.str "Eng"), ("Owner", Cell.str "Al"), ("Cost", Cell.num 1)],
   [("ResourceID", Cell.str "R1"), ("Tagged_filled", Cell.str "No"), ("Cost", Cell.num 2)]]

/-- Two records sharing resource id "R1", both with an absent department. -/
def twinTable : Table :=
  [[("ResourceID", Cell.str "R1"), ("Department", Cell.na)],
   [("ResourceID", Cell.str "R1"), ("Department", Cell.na)]]

/-- An edit assigning a department for resource id "R1". -/
def twinEdits : Edits := [("R1", [("Department", Cell.str "Eng")])]

/-- A raw input frame with only a fallback-named cost column. -/
def costOnlyRaw : RawFrame := ⟨["Cost"], [[("Cost", some "5")]]⟩

/-- A raw input frame with both accepted cost columns carrying different
values. -/
def bothCostRaw : RawFrame :=
  ⟨["MonthlyCostUSD", "Cost"], [[("MonthlyCostUSD", some "7"), ("Cost", some "999")]]⟩

/-- A two-row table with positive total cost for exercising the cost split. -/
def smallCostTable : Table :=
  [[("Tagged_filled", Cell.str "No"), ("Cost", Cell.num 100)],
   [("Tagged_filled", Cell.str "Yes"), ("Cost", Cell.num 50)]]

end Examples

/-! ### Basic lemmas about rows and column access -/

theorem getCell_nil (c : String) : getCell [] c = Cell.na := rfl

theorem getCell_cons (p : String × Cell) (r : Row) (c : String) :
    getCell (p :: r) c = if p.1 = c then p.2 else getCell r c := by
  by_cases h : p.1 = c <;>
    simp [getCell, List.find?_cons, h]

theorem hasCol_cons (p : String × Cell) (r : Row) (c : String) :
    hasCol (p :: r) c = (decide (p.1 = c) || hasCol r c) := by
  simp [hasCol]

theorem getCell_append (r s : Row) (c : String) :
    getCell (r ++ s) c = if hasCol r c then getCell r c else getCell s c := by
  induction r with
  | nil => simp [hasCol]
  | cons p r ih =>
      by_cases h : p.1 = c
      · simp [getCell_cons, hasCol_cons, h]
      · simp [getCell_cons, hasCol_cons, h, ih]

theorem hasCol_append (r s : Row) (c : String) :
    hasCol (r ++ s) c = (hasCol r c || hasCol s c) := by
  simp [hasCol, List.any_append]

theorem getCell_eq_na_of_not_hasCol (r : Row) (c : String) (h : hasCol r c = false) :
    getCell r c = Cell.na := by
  induction r with
  | nil => rfl
  | cons p r ih =>
      rw [hasCol_cons] at h
      rcases Bool.or_eq_false_iff.mp h with ⟨h1, h2⟩
      rw [getCell_cons, if_neg (by simpa using h1)]
      exact ih h2

theorem getCell_overwrite_ne (r : Row) (c : String) (v : Cell) (d : String) (hdc : d ≠ c) :
    getCell (r.map (fun p => if p.1 = c then (c, v) else p)) d = getCell r d := by
  induction r with
  | nil => rfl
  | cons p r ih =>
      by_cases hpc : p.1 = c
      · rw [List.map_cons, if_pos hpc, getCell_cons, getCell_cons,
          if_neg (fun h => hdc h.symm), if_neg (fun h => hdc (h.symm.trans hpc))]
        exact ih
      · rw [List.map_cons, if_neg hpc, getCell_cons, getCell_cons]
        by_cases hpd : p.1 = d
        · simp [hpd]
        · simp [hpd, ih]

theorem getCell_overwrite_eq (r : Row) (c : String) (v : Cell) :
    getCell (r.map (fun p => if p.1 = c then (c, v) else p)) c
      = if hasCol r c then v else Cell.na := by
  induction r with
  | nil => rfl
  | cons p r ih =>
      by_cases hpc : p.1 = c
      · simp [getCell_cons, hasCol_cons, hpc]
      · rw [List.map_cons, if_neg hpc, getCell_cons, if_neg hpc, hasCol_cons]
        simp only [hpc, decide_eq_true_eq, false_or]
        simpa using ih

theorem hasCol_overwrite (r : Row) (c : String) (v : Cell) (d : String) :
    hasCol (r.map (fun p => if p.1 = c then (c, v) else p)) d = hasCol r d := by
  induction r with
  | nil => rfl
  | cons p r ih =>
      by_cases hpc : p.1 = c
      · rw [List.map_cons, if_pos hpc, hasCol_cons, hasCol_cons, ih, hpc]
      · rw [List.map_cons, if_neg hpc, hasCol_cons, hasCol_cons, ih]

theorem hasCol_iff_any (r : Row) (c : String) :
    hasCol r c = r.any (fun p => p.1 = c) := rfl

/-- Column assignment then lookup: the assigned column reads back the new
value, every other column is untouched. -/
theorem getCell_setField (r : Row) (c : String) (v : Cell) (d : String) :
    getCell (setField r c v) d = if d = c then v else getCell r d := by
  unfold setField
  by_cases hany : r.any (fun p => p.1 = c)
  · rw [if_pos hany]
    by_cases hdc : d = c
    · subst hdc
      rw [getCell_overwrite_eq, if_pos (by rw [hasCol_iff_any]; exact hany), if_pos rfl]
    · rw [getCell_overwrite_ne r c v d hdc, if_neg hdc]
  · rw [if_neg hany, getCell_append]
    have hnoc : hasCol r c = false := by
      rw [hasCol_iff_any]
      exact Bool.not_eq_true _ ▸ (by simpa using hany)
    by_cases hdc : d = c
    · subst hdc
      rw [if_neg (by simp [hnoc]), getCell_cons, if_pos rfl, if_pos rfl]
    · by_cases hr : hasCol r d
      · simp [hr, hdc]
      · simp only [hr, Bool.false_eq_true, if_false, if_neg hdc]
        rw [getCell_cons, if_neg (fun h => hdc h.symm), getCell_nil,
          getCell_eq_na_of_not_hasCol r d (by simpa using hr)]

theorem hasCol_setField (r : Row) (c : String) (v : Cell) (d : String) :
    hasCol (setField r c v) d = (hasCol r d || decide (d = c)) := by
  unfold setField
  by_cases hany : r.any (fun p => p.1 = c)
  · rw [if_pos hany, hasCol_overwrite]
    by_cases hdc : d = c
    · subst hdc
      simp [hasCol_iff_any, hany]
    · simp [hdc]
  · rw [if_neg hany, hasCol_append, hasCol_cons]
    simp [hasCol, eq_comm]

/-! ### The edit loop acts row-wise -/

theorem applyChanges_eq_map (t : Table) (rid : String) (changes : List (String × Cell)) :
    applyChanges t rid changes = t.map (applyChangesRow rid changes) := by
  induction changes generalizing t with
  | nil =>
      show t = List.map (applyChangesRow rid []) t
      induction t with
      | nil => rfl
      | cons a l ihl =>
          rw [List.map_cons, ← ihl]
          rfl
  | cons cv rest ih =>
      show applyChanges (applyOneEdit t rid cv.1 cv.2) rid rest = _
      rw [ih]
      simp only [applyOneEdit, List.map_map]
      rfl

theorem applyEdits_eq_map (t : Table) (edits : Edits) :
    applyEdits t edits = t.map (applyEditsRow edits) := by
  induction edits generalizing t with
  | nil =>
      show t = List.map (applyEditsRow []) t
      induction t with
      | nil => rfl
      | cons a l ihl =>
          rw [List.map_cons, ← ihl]
          rfl
  | cons e rest ih =>
      show applyEdits (applyChanges t e.1 e.2) rest = _
      rw [ih, applyChanges_eq_map, List.map_map]
      rfl

theorem applyChangesRow_cons (rid : String) (cv : String × Cell)
    (rest : List (String × Cell)) (r : Row) :
    applyChangesRow rid (cv :: rest) r
      = applyChangesRow rid rest (applyOneEditRow r rid cv.1 cv.2) := rfl

theorem applyEditsRow_cons (e : String × List (String × Cell)) (rest : Edits) (r : Row) :
    applyEditsRow (e :: rest) r = applyEditsRow rest (applyChangesRow e.1 e.2 r) := rfl

theorem getCell_applyOneEditRow_ne (r : Row) (rid col : String) (v : Cell) (c : String)
    (h : col ≠ c) :
    getCell (applyOneEditRow r rid col v) c = getCell r c := by
  unfold applyOneEditRow
  by_cases hm : cellEq (getCell r "ResourceID") (Cell.str rid)
  · rw [if_pos hm, getCell_setField, if_neg (fun hc => h hc.symm)]
  · rw [if_neg hm]

theorem getCell_applyChangesRow_ne (rid : String) (changes : List (String × Cell)) (r : Row)
    (c : String) (h : ∀ cv ∈ changes, cv.1 ≠ c) :
    getCell (applyChangesRow rid changes r) c = getCell r c := by
  induction changes generalizing r with
  | nil => rfl
  | cons cv rest ih =>
      rw [applyChangesRow_cons, ih _ (fun x hx => h x (List.mem_cons_of_mem _ hx)),
        getCell_applyOneEditRow_ne _ _ _ _ _ (h cv (List.mem_cons_self _ _))]

theorem getCell_applyEditsRow_ne (edits : Edits) (r : Row) (c : String)
    (h : ∀ e ∈ edits, ∀ cv ∈ e.2, cv.1 ≠ c) :
    getCell (applyEditsRow edits r) c = getCell r c := by
  induction edits generalizing r with
  | nil => rfl
  | cons e rest ih =>
      rw [applyEditsRow_cons, ih _ (fun x hx => h x (List.mem_cons_of_mem _ hx)),
        getCell_applyChangesRow_ne _ _ _ _ (h e (List.mem_cons_self _ _))]

/-- Setting `TagCompleteness` does not disturb the three fields the
resolved-status recompute reads. -/
theorem recompTagged_setField_completeness (r : Row) (w : Cell) :
    recompTagged (setField r "TagCompleteness" w) = recompTagged r := by
  unfold recompTagged
  rw [getCell_setField, getCell_setField, getCell_setField,
    if_neg (by decide : ¬ ("Department" : String) = "TagCompleteness"),
    if_neg (by decide : ¬ ("Owner" : String) = "TagCompleteness"),
    if_neg (by decide : ¬ ("Tagged_filled" : String) = "TagCompleteness")]

/-- C1: for every record of the remediated table, the recomputed resolved
status is "Yes" when both `Department` and `Owner` are present after the
edits are applied (whatever the other tag fields hold); otherwise it is the
record's prior resolved value when one exists, and "No" when it does not. -/
theorem resolved_status_rule (df : Table) (edits : Edits) (i : ℕ) :
    ((apply_remediation df edits).table[i]?).map (fun r => getCell r "Tagged_filled")
      = ((applyEdits df edits)[i]?).map (fun e =>
          if getCell e "Department" ≠ Cell.na ∧ getCell e "Owner" ≠ Cell.na then Cell.str "Yes"
          else if getCell e "Tagged_filled" ≠ Cell.na then getCell e "Tagged_filled"
          else Cell.str "No") := by
  show ((recomputeTagged (recomputeCompleteness (applyEdits df edits)))[i]?).map
      (fun r => getCell r "Tagged_filled") = _
  unfold recomputeTagged recomputeCompleteness
  rw [List.map_map, List.getElem?_map]
  cases h : (applyEdits df edits)[i]? with
  | none => rfl
  | some e =>
      show some (getCell (setField (setField e "TagCompleteness" _) "Tagged_filled"
        (recompTagged (setField e "TagCompleteness" _))) "Tagged_filled") = _
      rw [getCell_setField, if_pos rfl, recompTagged_setField_completeness]
      rfl

/-- C3: `apply_remediation` never mutates the baseline table: the result
keeps the input table itself as its baseline (every field of every record
equal to its pre-call value), and the before metrics are those of that
unmodified baseline. -/
theorem apply_remediation_preserves_baseline (df : Table) (edits : Edits) :
    (apply_remediation df edits).baseline = df
      ∧ (∀ i c, getCell ((apply_remediation df edits).baseline.getD i []) c
          = getCell (df.getD i []) c)
      ∧ (apply_remediation df edits).beforeUntagCost = untaggedCost df
      ∧ (apply_remediation df edits).beforeUntagCount = untaggedCount df :=
  ⟨rfl, fun _ _ => rfl, rfl, rfl⟩

/-! ### Broadcast semantics of the edit merge -/

theorem cellEq_str_right (x : Cell) (s : String) (h : cellEq x (Cell.str s) = true) :
    x = Cell.str s := by
  cases x with
  | na => simp [cellEq] at h
  | str a => simpa [cellEq] using h
  | num q => simp [cellEq] at h

theorem cellEq_str_str (a b : String) : cellEq (Cell.str a) (Cell.str b) = decide (a = b) := rfl

theorem applyChangesRow_not_matching (rid : String) (changes : List (String × Cell)) (r : Row)
    (h : cellEq (getCell r "ResourceID") (Cell.str rid) = false) :
    applyChangesRow rid changes r = r := by
  induction changes with
  | nil => rfl
  | cons cv rest ih =>
      rw [applyChangesRow_cons]
      unfold applyOneEditRow
      rw [if_neg (by simp [h]), ih]

theorem applyEditsRow_no_match (edits : Edits) (r : Row)
    (h : ∀ e ∈ edits, cellEq (getCell r "ResourceID") (Cell.str e.1) = false) :
    applyEditsRow edits r = r := by
  induction edits with
  | nil => rfl
  | cons e rest ih =>
      rw [applyEditsRow_cons, applyChangesRow_not_matching _ _ _ (h e (List.mem_cons_self _ _))]
      exact ih (fun x hx => h x (List.mem_cons_of_mem _ hx))

theorem getCell_applyChangesRow_of_mem (rid : String) (changes : List (String × Cell))
    (r : Row) (col : String) (v : Cell)
    (hmatch : cellEq (getCell r "ResourceID") (Cell.str rid) = true)
    (hcv : (col, v) ∈ changes)
    (hnd : (changes.map Prod.fst).Nodup)
    (hrid : ∀ cv ∈ changes, cv.1 ≠ "ResourceID") :
    getCell (applyChangesRow rid changes r) col = v := by
  induction changes generalizing r with
  | nil => simp at hcv
  | cons cv rest ih =>
      rw [applyChangesRow_cons]
      rcases List.mem_cons.mp hcv with hhead | htail
      · subst hhead
        rw [List.map_cons] at hnd
        have hnotin : ∀ x ∈ rest, x.1 ≠ col := by
          intro x hx hxcol
          exact (List.nodup_cons.mp hnd).1 (List.mem_map.mpr ⟨x, hx, hxcol⟩)
        rw [getCell_applyChangesRow_ne _ _ _ _ hnotin]
        unfold applyOneEditRow
        rw [if_pos hmatch, getCell_setField, if_pos rfl]
      · have hkeep : getCell (applyOneEditRow r rid cv.1 cv.2) "ResourceID"
            = getCell r "ResourceID" :=
          getCell_applyOneEditRow_ne _ _ _ _ _ (hrid cv (List.mem_cons_self _ _))
        exact ih _ (by rw [hkeep]; exact hmatch) htail (List.nodup_cons.mp hnd).2
          (fun x hx => hrid x (List.mem_cons_of_mem _ hx))

theorem getCell_applyChangesRow_keeps (rid : String) (changes : List (String × Cell))
    (r : Row) (c : String) (h : ∀ cv ∈ changes, cv.1 ≠ c) :
    getCell (applyChangesRow rid changes r) c = getCell r c :=
  getCell_applyChangesRow_ne rid changes r c h

theorem getCell_applyEditsRow_broadcast (edits : Edits) (r : Row)
    (rid : String) (changes : List (String × Cell)) (col : String) (v : Cell)
    (hin : (rid, changes) ∈ edits)
    (hcv : (col, v) ∈ changes)
    (hkeys : (edits.map Prod.fst).Nodup)
    (hnd : (changes.map Prod.fst).Nodup)
    (hrid : ∀ e ∈ edits, ∀ cv ∈ e.2, cv.1 ≠ "ResourceID")
    (hmatch : cellEq (getCell r "ResourceID") (Cell.str rid) = true) :
    getCell (applyEditsRow edits r) col = v := by
  induction edits generalizing r with
  | nil => simp at hin
  | cons e rest ih =>
      rw [applyEditsRow_cons]
      rcases List.mem_cons.mp hin with hhead | htail
      · subst hhead
        have hX : getCell r "ResourceID" = Cell.str rid := cellEq_str_right _ _ hmatch
        have hkeep : getCell (applyChangesRow rid changes r) "ResourceID"
            = getCell r "ResourceID" :=
          getCell_applyChangesRow_keeps _ _ _ _ (hrid _ (List.mem_cons_self _ _))
        have hrest : applyEditsRow rest (applyChangesRow rid changes r)
            = applyChangesRow rid changes r := by
          apply applyEditsRow_no_match
          intro x hx
          rw [hkeep, hX, cellEq_str_str]
          have hne : rid ≠ x.1 := by
            intro hcontra
            rw [List.map_cons] at hkeys
            exact (List.nodup_cons.mp hkeys).1 (List.mem_map.mpr ⟨x, hx, hcontra.symm⟩)
          simpa using hne
        rw [hrest]
        exact getCell_applyChangesRow_of_mem _ _ _ _ _ hmatch hcv hnd
          (hrid _ (List.mem_cons_self _ _))
      · have hkeep : getCell (applyChangesRow e.1 e.2 r) "ResourceID"
            = getCell r "ResourceID" :=
          getCell_applyChangesRow_keeps _ _ _ _ (hrid e (List.mem_cons_self _ _))
        rw [List.map_cons] at hkeys
        exact ih (applyChangesRow e.1 e.2 r) htail (List.nodup_cons.mp hkeys).2
          (fun x hx => hrid x (List.mem_cons_of_mem _ hx)) (by rw [hkeep]; exact hmatch)

/-- C2: for every (resource id, field, value) triple of the edits mapping,
every record of the table whose `ResourceID` equals that key receives the
assignment — all records sharing a duplicated resource id are updated, not
just the first match. (The mapping has one entry per resource id and one
value per field, as produced by `to_dict`, and never targets `ResourceID`
itself, which `set_index` removed from the columns.) -/
theorem broadcast_edit (df : Table) (edits : Edits) (rid : String)
    (changes : List (String × Cell)) (col : String) (v : Cell)
    (hin : (rid, changes) ∈ edits)
    (hcv : (col, v) ∈ changes)
    (hkeys : (edits.map Prod.fst).Nodup)
    (hnd : (changes.map Prod.fst).Nodup)
    (hrid : ∀ e ∈ edits, ∀ cv ∈ e.2, cv.1 ≠ "ResourceID")
    (i : ℕ) (r : Row) (hr : df[i]? = some r)
    (hmatch : cellEq (getCell r "ResourceID") (Cell.str rid) = true) :
    ((applyEdits df edits)[i]?).map (fun x => getCell x col) = some v := by
  rw [applyEdits_eq_map, List.getElem?_map, hr]
  show some (getCell (applyEditsRow edits r) col) = some v
  rw [getCell_applyEditsRow_broadcast edits r rid changes col v hin hcv hkeys hnd hrid hmatch]

/-- Witness for the broadcast theorem: two records share resource id "R1";
the single department edit for "R1" lands on both of them. -/
theorem broadcast_edit_witness :
    ((applyEdits twinTable twinEdits)[0]?).map (fun x => getCell x "Department")
        = some (Cell.str "Eng")
      ∧ ((applyEdits twinTable twinEdits)[1]?).map (fun x => getCell x "Department")
        = some (Cell.str "Eng") :=
  ⟨broadcast_edit twinTable twinEdits "R1" [("Department", Cell.str "Eng")]
      "Department" (Cell.str "Eng") (by decide) (by decide) (by decide) (by decide)
      (by decide) 0 [("ResourceID", Cell.str "R1"), ("Department", Cell.na)]
      (by decide) (by decide),
    broadcast_edit twinTable twinEdits "R1" [("Department", Cell.str "Eng")]
      "Department" (Cell.str "Eng") (by decide) (by decide) (by decide) (by decide)
      (by decide) 1 [("ResourceID", Cell.str "R1"), ("Department", Cell.na)]
      (by decide) (by decide)⟩

end CloudMart

namespace CloudMart

/-! ### Cost aggregation -/

/-- C5: the cost summary never divides by zero: when the total cost is 0
(in particular on the empty table) the untagged-cost percentage is 0; when
the total cost is positive the percentage is untagged over total times 100. -/
theorem zero_division_guard (t : Table) :
    (totalCost t = 0 → untaggedCostPct t = 0)
      ∧ (0 < totalCost t →
          untaggedCostPct t = untaggedCost t / totalCost t * 100) := by
  constructor
  · intro h
    rw [untaggedCostPct, if_neg (by simp [h])]
  · intro h
    rw [untaggedCostPct, if_pos (ne_of_gt h)]

/-- Witness: the guard fires on the empty table and the formula holds on a
table of total cost 150. -/
theorem zero_division_guard_witness :
    untaggedCostPct ([] : Table) = 0
      ∧ untaggedCostPct smallCostTable
          = untaggedCost smallCostTable / totalCost smallCostTable * 100 :=
  ⟨(zero_division_guard []).1 rfl,
    (zero_division_guard smallCostTable).2 (by
      simp +decide [totalCost, smallCostTable, rowCost, cellCost, getCell, List.find?]
      norm_num)⟩

theorem totalCost_cons (r : Row) (t : Table) :
    totalCost (r :: t) = rowCost r + totalCost t := by
  simp [totalCost]

theorem splitVal_cons (r : Row) (t : Table) (k : Cell) :
    splitVal (r :: t) k
      = (if getCell r "Tagged_filled" = k then rowCost r else 0) + splitVal t k := by
  unfold splitVal
  rw [List.filter_cons]
  by_cases h : getCell r "Tagged_filled" = k
  · simp [h, totalCost_cons]
  · simp [h]

theorem splitVal_eq_zero_of_not_mem (t : Table) (k : Cell) (h : k ∉ splitKeys t) :
    splitVal t k = 0 := by
  unfold splitVal
  have : t.filter (fun r => getCell r "Tagged_filled" = k) = [] := by
    rw [List.filter_eq_nil_iff]
    intro r hr
    simp only [decide_eq_true_eq]
    intro hk
    exact h (by
      unfold splitKeys
      rw [List.mem_toFinset]
      exact List.mem_map.mpr ⟨r, hr, hk⟩)
  rw [this]
  rfl

/-- C7: the cost split by resolved tagged status partitions the total: the
sum of the per-status group costs equals the table's total cost — nothing
is lost or double-counted (the NA group is kept by `dropna=False`). -/
theorem cost_split_totals (t : Table) :
    ∑ k ∈ splitKeys t, splitVal t k = totalCost t := by
  induction t with
  | nil =>
      simp [splitKeys, splitVal, totalCost]
  | cons r t ih =>
      have hkeys : splitKeys (r :: t)
          = insert (getCell r "Tagged_filled") (splitKeys t) := by
        simp [splitKeys]
      rw [hkeys, totalCost_cons]
      have hsplit : ∀ k ∈ insert (getCell r "Tagged_filled") (splitKeys t),
          splitVal (r :: t) k
            = (if getCell r "Tagged_filled" = k then rowCost r else 0) + splitVal t k :=
        fun k _ => splitVal_cons r t k
      rw [Finset.sum_congr rfl hsplit, Finset.sum_add_distrib, Finset.sum_ite_eq,
        if_pos (Finset.mem_insert_self _ _)]
      by_cases hmem : getCell r "Tagged_filled" ∈ splitKeys t
      · rw [Finset.insert_eq_self.mpr hmem, ih]
      · rw [Finset.sum_insert hmem, splitVal_eq_zero_of_not_mem t _ hmem, zero_add, ih]

/-! ### Filter composition -/

theorem oneFilter_eq (col : String) (xs : List String) (t : Table) :
    oneFilter col xs t = t.filter (passFilter xs col) := by
  unfold oneFilter passFilter
  cases hxs : xs.isEmpty
  · simp [hxs]
  · simp [hxs]

theorem filter_swap (p q : Row → Bool) (t : Table) :
    (t.filter p).filter q = (t.filter q).filter p := by
  rw [List.filter_filter, List.filter_filter]
  apply List.filter_congr
  intro r _
  exact Bool.and_comm _ _

theorem oneFilter_comm (c1 c2 : String) (x1 x2 : List String) (t : Table) :
    oneFilter c1 x1 (oneFilter c2 x2 t) = oneFilter c2 x2 (oneFilter c1 x1 t) := by
  rw [oneFilter_eq, oneFilter_eq, oneFilter_eq, oneFilter_eq, filter_swap]

theorem memb_singleton_service (r : Row) :
    memb (getCell r "Service") ["EC2"] = decide (getCell r "Service" = Cell.str "EC2") := by
  cases h : getCell r "Service" with
  | na => simp [memb]
  | str s =>
      by_cases hs : s = "EC2"
      · simp [memb, hs]
      · simp [memb, hs]
  | num q => simp [memb]

/-- C8: the three selection filters restrict by membership, an empty
selection imposing no restriction; together they are the conjunction filter,
every sequential order of application yields the same table, and filtering
on the service set consisting of "EC2" alone returns exactly the records
whose service equals "EC2". -/
theorem filter_composition (t : Table) (ss rs ds : List String) :
    (filter_by t ss rs ds
        = t.filter (fun r => passFilter ss "Service" r
            && passFilter rs "Region" r && passFilter ds "Department" r))
      ∧ filter_by t ss rs ds
          = oneFilter "Department" ds (oneFilter "Region" rs (oneFilter "Service" ss t))
      ∧ filter_by t ss rs ds
          = oneFilter "Department" ds (oneFilter "Service" ss (oneFilter "Region" rs t))
      ∧ filter_by t ss rs ds
          = oneFilter "Region" rs (oneFilter "Department" ds (oneFilter "Service" ss t))
      ∧ filter_by t ss rs ds
          = oneFilter "Region" rs (oneFilter "Service" ss (oneFilter "Department" ds t))
      ∧ filter_by t ss rs ds
          = oneFilter "Service" ss (oneFilter "Department" ds (oneFilter "Region" rs t))
      ∧ filter_by t ss rs ds
          = oneFilter "Service" ss (oneFilter "Region" rs (oneFilter "Department" ds t))
      ∧ filter_by t ["EC2"] [] []
          = t.filter (fun r => decide (getCell r "Service" = Cell.str "EC2")) := by
  refine ⟨?_, rfl, ?_, ?_, ?_, ?_, ?_, ?_⟩
  · show oneFilter "Department" ds (oneFilter "Region" rs (oneFilter "Service" ss t)) = _
    rw [oneFilter_eq, oneFilter_eq, oneFilter_eq, List.filter_filter, List.filter_filter]
    apply List.filter_congr
    intro r _
    cases passFilter ss "Service" r <;> cases passFilter rs "Region" r <;>
      cases passFilter ds "Department" r <;> rfl
  · show oneFilter "Department" ds (oneFilter "Region" rs (oneFilter "Service" ss t)) = _
    rw [oneFilter_comm "Region" "Service"]
  · show oneFilter "Department" ds (oneFilter "Region" rs (oneFilter "Service" ss t)) = _
    rw [oneFilter_comm "Department" "Region"]
  · show oneFilter "Department" ds (oneFilter "Region" rs (oneFilter "Service" ss t)) = _
    rw [oneFilter_comm "Department" "Region", oneFilter_comm "Department" "Service"]
  · show oneFilter "Department" ds (oneFilter "Region" rs (oneFilter "Service" ss t)) = _
    rw [oneFilter_comm "Region" "Service", oneFilter_comm "Department" "Service"]
  · show oneFilter "Department" ds (oneFilter "Region" rs (oneFilter "Service" ss t)) = _
    rw [oneFilter_comm "Region" "Service", oneFilter_comm "Department" "Service",
      oneFilter_comm "Department" "Region"]
  · show oneFilter "Department" [] (oneFilter "Region" [] (oneFilter "Service" ["EC2"] t)) = _
    show oneFilter "Service" ["EC2"] t = _
    rw [oneFilter_eq]
    apply List.filter_congr
    intro r _
    unfold passFilter
    rw [memb_singleton_service]
    rfl

end CloudMart

namespace CloudMart

/-! ### The changed report and untag-preservation -/

theorem cellEq_refl_str (s : String) : cellEq (Cell.str s) (Cell.str s) = true := by
  simp [cellEq]

theorem mergeKeyEq_refl (a : Cell) : mergeKeyEq a a = true := by
  simp [mergeKeyEq]

theorem mergeKeyEq_eq (a b : Cell) (h : mergeKeyEq a b = true) : a = b := by
  simpa [mergeKeyEq] using h

theorem remediated_row (df : Table) (edits : Edits) :
    (apply_remediation df edits).table
      = df.map (fun r =>
          setField
            (setField (applyEditsRow edits r) "TagCompleteness"
              (Cell.num (completeness_score (applyEditsRow edits r))))
            "Tagged_filled"
            (recompTagged (setField (applyEditsRow edits r) "TagCompleteness"
              (Cell.num (completeness_score (applyEditsRow edits r)))))) := by
  show recomputeTagged (recomputeCompleteness (applyEdits df edits)) = _
  rw [applyEdits_eq_map]
  unfold recomputeCompleteness recomputeTagged
  rw [List.map_map, List.map_map]
  rfl

theorem getCell_recomp_tagged (e : Row) (w : Cell) :
    getCell (setField (setField e "TagCompleteness" w) "Tagged_filled"
      (recompTagged (setField e "TagCompleteness" w))) "Tagged_filled"
      = recompTagged e := by
  rw [getCell_setField, if_pos rfl, recompTagged_setField_completeness]

theorem getCell_recomp_rid (e : Row) (w x : Cell) :
    getCell (setField (setField e "TagCompleteness" w) "Tagged_filled" x) "ResourceID"
      = getCell e "ResourceID" := by
  rw [getCell_setField, if_neg (by decide : ¬ ("ResourceID" : String) = "Tagged_filled"),
    getCell_setField, if_neg (by decide : ¬ ("ResourceID" : String) = "TagCompleteness")]

theorem recompTagged_of_yes (e : Row) (h : getCell e "Tagged_filled" = Cell.str "Yes") :
    recompTagged e = Cell.str "Yes" := by
  by_cases hd : getCell e "Department" ≠ Cell.na ∧ getCell e "Owner" ≠ Cell.na
  · rw [recompTagged, if_pos hd]
  · rw [recompTagged, if_neg hd, if_pos (by rw [h]; simp), h]

theorem recompTagged_of_prior_present (e : Row) (h : getCell e "Tagged_filled" ≠ Cell.na) :
    recompTagged e = Cell.str "Yes" ∨ recompTagged e = getCell e "Tagged_filled" := by
  by_cases hd : getCell e "Department" ≠ Cell.na ∧ getCell e "Owner" ≠ Cell.na
  · left
    rw [recompTagged, if_pos hd]
  · right
    rw [recompTagged, if_neg hd, if_pos h]

/-- C9 (amended): for an edits mapping that assigns values only to ordinary
record fields (neither the resolved-status column `Tagged_filled` nor the
key column `ResourceID`), remediation never untags a record: every record
resolved "Yes" keeps status "Yes" in the remediated table. When moreover
the baseline's resource ids are pairwise distinct and every record's
resolved value is the string "Yes" or "No", every entry of the `changed`
report is a "No" to "Yes" transition. -/
theorem remediation_never_untags (df : Table) (edits : Edits)
    (hnt : ∀ e ∈ edits, ∀ cv ∈ e.2, cv.1 ≠ "Tagged_filled")
    (hrid : ∀ e ∈ edits, ∀ cv ∈ e.2, cv.1 ≠ "ResourceID") :
    (∀ (i : ℕ) (r : Row), df[i]? = some r → getCell r "Tagged_filled" = Cell.str "Yes" →
        ((apply_remediation df edits).table[i]?).map (fun x => getCell x "Tagged_filled")
          = some (Cell.str "Yes"))
      ∧ ((df.map (fun r => getCell r "ResourceID")).Nodup →
          (∀ r ∈ df, getCell r "Tagged_filled" = Cell.str "Yes"
              ∨ getCell r "Tagged_filled" = Cell.str "No") →
          ∀ en ∈ (apply_remediation df edits).changed,
            en.before = Cell.str "No" ∧ en.after = Cell.str "Yes") := by
  constructor
  · intro i r hr hyes
    rw [remediated_row, List.getElem?_map, hr]
    show some (getCell _ "Tagged_filled") = _
    rw [getCell_recomp_tagged,
      recompTagged_of_yes _ (by rw [getCell_applyEditsRow_ne _ _ _ hnt]; exact hyes)]
  · intro huniq hwf en hen
    have hchanged : (apply_remediation df edits).changed
        = changedOf df ((apply_remediation df edits).table) := rfl
    rw [hchanged, remediated_row, changedOf] at hen
    rcases List.mem_filter.mp hen with ⟨hmem, hpred⟩
    rcases List.mem_flatten.mp hmem with ⟨L, hL, henL⟩
    rcases List.mem_map.mp hL with ⟨fr, hfr, hfrL⟩
    rcases List.mem_map.mp hfr with ⟨rr, hrr, hfrr⟩
    subst hfrr
    subst hfrL
    set Frr := setField
        (setField (applyEditsRow edits rr) "TagCompleteness"
          (Cell.num (completeness_score (applyEditsRow edits rr))))
        "Tagged_filled"
        (recompTagged (setField (applyEditsRow edits rr) "TagCompleteness"
          (Cell.num (completeness_score (applyEditsRow edits rr))))) with hFrr
    have hkey : getCell Frr "ResourceID" = getCell rr "ResourceID" := by
      rw [hFrr, getCell_recomp_rid, getCell_applyEditsRow_ne _ _ _ hrid]
    have hafter : getCell Frr "Tagged_filled"
        = recompTagged (applyEditsRow edits rr) := by
      rw [hFrr, getCell_recomp_tagged]
    have hprior : getCell (applyEditsRow edits rr) "Tagged_filled"
        = getCell rr "Tagged_filled" := getCell_applyEditsRow_ne _ _ _ hnt
    have hrrhit : rr ∈ df.filter
        (fun b => mergeKeyEq (getCell b "ResourceID") (getCell Frr "ResourceID")) :=
      List.mem_filter.mpr ⟨hrr, by rw [hkey]; exact mergeKeyEq_refl _⟩
    rw [leftJoinRow] at henL
    simp only [List.isEmpty_iff] at henL
    rw [if_neg (List.ne_nil_of_mem hrrhit)] at henL
    rcases List.mem_map.mp henL with ⟨b, hb, hben⟩
    rcases List.mem_filter.mp hb with ⟨hbdf, hbkey⟩
    have hbrr : b = rr := by
      apply List.inj_on_of_nodup_map huniq hbdf hrr
      rw [mergeKeyEq_eq _ _ hbkey, hkey]
    subst hbrr
    have hbf : en.before = getCell b "Tagged_filled" := by rw [← hben]
    have haf : en.after = getCell Frr "Tagged_filled" := by rw [← hben]
    rcases hwf b hbdf with hyes | hno
    · exfalso
      have : en.after = Cell.str "Yes" := by
        rw [haf, hafter, recompTagged_of_yes _ (by rw [hprior]; exact hyes)]
      rw [← hben] at hpred
      simp only [cellNeq] at hpred
      rw [hafter, recompTagged_of_yes _ (by rw [hprior]; exact hyes), hyes,
        cellEq_refl_str] at hpred
      simp at hpred
    · refine ⟨by rw [hbf, hno], ?_⟩
      rcases recompTagged_of_prior_present (applyEditsRow edits b)
          (by rw [hprior, hno]; simp) with hY | hP
      · rw [haf, hafter, hY]
      · exfalso
        rw [← hben] at hpred
        simp only [cellNeq] at hpred
        rw [hafter, hP, hprior, hno, cellEq_refl_str] at hpred
        simp at hpred

/-- Witness: in the specification's scenario, the tagged record "B" stays
"Yes" after remediation, and the single changed entry is a "No" to "Yes"
transition for record "A". -/
theorem remediation_never_untags_witness :
    ((apply_remediation scenarioTable scenarioEdits).table[1]?).map
        (fun x => getCell x "Tagged_filled") = some (Cell.str "Yes")
      ∧ (⟨Cell.str "A", Cell.str "No", Cell.str "Yes", Cell.num 100⟩
          : ChangedEntry).before = Cell.str "No" :=
  ⟨(remediation_never_untags scenarioTable scenarioEdits (by decide) (by decide)).1
      1 rowB (by decide) (by decide),
    ((remediation_never_untags scenarioTable scenarioEdits (by decide) (by decide)).2
      (by decide) (by decide) _ (by decide)).1⟩

/-- Counterexample to C9 as stated: with a duplicated resource id the
many-to-many `changed` join pairs the second record's "No" after-status
with the first record's "Yes" before-status, so not every changed entry is
a "No" to "Yes" transition (here with an empty edits mapping). -/
theorem changed_no_to_yes_counterexample :
    ¬ (∀ en ∈ (apply_remediation dupTable []).changed,
        en.before = Cell.str "No" ∧ en.after = Cell.str "Yes") := by decide

end CloudMart

namespace CloudMart

/-! ### Loader lemmas -/

theorem hasCol_nil (c : String) : hasCol ([] : Row) c = false := rfl

theorem getCell_keyed_map (cols : List String) (h : String → Cell) (d : String) :
    getCell (cols.map (fun c => (c, h c))) d
      = if cols.contains d then h d else Cell.na := by
  induction cols with
  | nil => rfl
  | cons c tl ih =>
      rw [List.map_cons, getCell_cons, List.contains_cons]
      by_cases hcd : c = d
      · subst hcd
        simp
      · rw [if_neg hcd, ih]
        have : (d == c) = false := by simpa using fun hh => hcd hh.symm
        simp [this]

theorem hasCol_keyed_map (cols : List String) (h : String → Cell) (d : String) :
    hasCol (cols.map (fun c => (c, h c))) d = cols.contains d := by
  induction cols with
  | nil => rfl
  | cons c tl ih =>
      rw [List.map_cons, hasCol_cons, List.contains_cons, ih]
      by_cases hcd : c = d
      · subst hcd
        simp
      · have h1 : (d == c) = false := by simpa using fun hh => hcd hh.symm
        simp [hcd, h1]

theorem step1_eq (cols : List String) (costCol : String)
    (r : List (String × Option String)) :
    cols.map (fun c =>
        if c = "Cost" then ("Cost", coerceCost (rawGet r costCol))
        else (c, normOpt (rawGet r c)))
      = cols.map (fun c =>
          (c, if c = "Cost" then coerceCost (rawGet r costCol) else normOpt (rawGet r c))) :=
  List.map_congr_left (fun c _ => by by_cases hh : c = "Cost" <;> simp [hh])

theorem getCell_addMissing (cols reqs : List String) (acc : Row) (c : String) :
    getCell (addMissing cols reqs acc) c
      = if hasCol acc c then getCell acc c else Cell.na := by
  induction reqs generalizing acc with
  | nil =>
      by_cases h : hasCol acc c
      · simp [addMissing, h]
      · simp [addMissing, h, getCell_eq_na_of_not_hasCol acc c (by simpa using h)]
  | cons q rest ih =>
      show getCell (addMissing cols rest
        (if cols.contains q then acc else acc ++ [(q, Cell.na)])) c = _
      by_cases hq : cols.contains q
      · rw [if_pos hq, ih]
      · rw [if_neg hq, ih]
        by_cases hacc : hasCol acc c
        · rw [if_pos (by rw [hasCol_append]; simp [hacc]), if_pos hacc,
            getCell_append, if_pos hacc]
        · rw [if_neg hacc]
          by_cases hqc : q = c
          · subst hqc
            rw [if_pos (by rw [hasCol_append, hasCol_cons]; simp),
              getCell_append, if_neg (by simpa using hacc), getCell_cons, if_pos rfl]
          · have h0 : hasCol acc c = false := by simpa using hacc
            have h2 : decide (q = c) = false := by simpa using hqc
            rw [if_neg (by
              rw [hasCol_append, hasCol_cons]
              simp [h0, h2, hasCol_nil])]

theorem hasCol_addMissing (cols reqs : List String) (acc : Row) (c : String) :
    hasCol (addMissing cols reqs acc) c
      = (hasCol acc c || (reqs.contains c && !(cols.contains c))) := by
  induction reqs generalizing acc with
  | nil => simp [addMissing]
  | cons q rest ih =>
      show hasCol (addMissing cols rest
        (if cols.contains q then acc else acc ++ [(q, Cell.na)])) c = _
      rw [List.contains_cons]
      by_cases hq : cols.contains q
      · rw [if_pos hq, ih]
        by_cases hcq : c = q
        · subst hcq
          rw [hq]
          simp
        · have h1 : (c == q) = false := by simpa using hcq
          rw [h1]
          simp
      · rw [if_neg hq, ih, hasCol_append, hasCol_cons]
        by_cases hcq : c = q
        · subst hcq
          have h0 : cols.contains c = false := by simpa using hq
          rw [h0]
          simp [hasCol_nil]
        · have h1 : (c == q) = false := by simpa using hcq
          have h2 : decide (q = c) = false := by simpa using fun hh => hcq hh.symm
          rw [h1, h2]
          simp [hasCol_nil]

theorem hasCol_accountCast (r : Row) (c : String) :
    hasCol (accountCast r) c = hasCol r c := by
  unfold accountCast
  induction r with
  | nil => rfl
  | cons p tl ih =>
      rw [List.map_cons, hasCol_cons, hasCol_cons, ih]
      by_cases hp : p.1 = "AccountID" <;> simp [hp]

theorem getCell_accountCast_ne (r : Row) (c : String) (h : c ≠ "AccountID") :
    getCell (accountCast r) c = getCell r c := by
  unfold accountCast
  induction r with
  | nil => rfl
  | cons p tl ih =>
      rw [List.map_cons, getCell_cons, getCell_cons]
      by_cases hp : p.1 = "AccountID"
      · rw [if_pos hp]
        have hpc : ¬ p.1 = c := fun hc => h (hc.symm.trans hp)
        simp only [hpc, Bool.false_eq_true, if_false]
        exact ih
      · rw [if_neg hp]
        by_cases hpc : p.1 = c
        · simp [hpc]
        · simp [hpc, ih]

theorem getCell_accountCast_eq (r : Row) :
    getCell (accountCast r) "AccountID"
      = if hasCol r "AccountID" then accountToStr (getCell r "AccountID") else Cell.na := by
  unfold accountCast
  induction r with
  | nil => simp [getCell_nil, hasCol]
  | cons p tl ih =>
      rw [List.map_cons, getCell_cons, getCell_cons, hasCol_cons]
      by_cases hp : p.1 = "AccountID"
      · simp [hp]
      · rw [if_neg hp, if_neg hp, ih]
        simp [hp]

theorem hasCol_withCost_cost (cols : List String) (costCol : String)
    (r : List (String × Option String)) :
    hasCol (if cols.contains "Cost"
      then cols.map (fun c =>
        if c = "Cost" then ("Cost", coerceCost (rawGet r costCol))
        else (c, normOpt (rawGet r c)))
      else cols.map (fun c =>
        if c = "Cost" then ("Cost", coerceCost (rawGet r costCol))
        else (c, normOpt (rawGet r c))) ++ [("Cost", coerceCost (rawGet r costCol))])
      "Cost" = true := by
  by_cases hc : cols.contains "Cost"
  · rw [if_pos hc, step1_eq, hasCol_keyed_map, hc]
  · rw [if_neg hc, hasCol_append, hasCol_cons]
    simp

theorem getCell_withCost_cost (cols : List String) (costCol : String)
    (r : List (String × Option String)) :
    getCell (if cols.contains "Cost"
      then cols.map (fun c =>
        if c = "Cost" then ("Cost", coerceCost (rawGet r costCol))
        else (c, normOpt (rawGet r c)))
      else cols.map (fun c =>
        if c = "Cost" then ("Cost", coerceCost (rawGet r costCol))
        else (c, normOpt (rawGet r c))) ++ [("Cost", coerceCost (rawGet r costCol))])
      "Cost" = coerceCost (rawGet r costCol) := by
  by_cases hc : cols.contains "Cost"
  · rw [if_pos hc, step1_eq, getCell_keyed_map, if_pos hc, if_pos rfl]
  · have hc0 : cols.contains "Cost" = false := by simpa using hc
    rw [if_neg hc, getCell_append, step1_eq, hasCol_keyed_map, hc0]
    simp [getCell_cons]

theorem hasCol_withCost_other (cols : List String) (costCol : String)
    (r : List (String × Option String)) (c : String) (hco : c ≠ "Cost") :
    hasCol (if cols.contains "Cost"
      then cols.map (fun x =>
        if x = "Cost" then ("Cost", coerceCost (rawGet r costCol))
        else (x, normOpt (rawGet r x)))
      else cols.map (fun x =>
        if x = "Cost" then ("Cost", coerceCost (rawGet r costCol))
        else (x, normOpt (rawGet r x))) ++ [("Cost", coerceCost (rawGet r costCol))])
      c = cols.contains c := by
  by_cases hc : cols.contains "Cost"
  · rw [if_pos hc, step1_eq, hasCol_keyed_map]
  · rw [if_neg hc, hasCol_append, hasCol_cons, step1_eq, hasCol_keyed_map]
    have h2 : decide (("Cost" : String) = c) = false := by
      simpa using fun hh => hco hh.symm
    simp [h2, hasCol_nil]

end CloudMart

namespace CloudMart

theorem loadRow_eq (cols : List String) (costCol : String)
    (r : List (String × Option String)) :
    loadRow cols costCol r = accountCast (addMissing cols requiredCols
      (if cols.contains "Cost"
        then cols.map (fun c =>
          if c = "Cost" then ("Cost", coerceCost (rawGet r costCol))
          else (c, normOpt (rawGet r c)))
        else cols.map (fun c =>
          if c = "Cost" then ("Cost", coerceCost (rawGet r costCol))
          else (c, normOpt (rawGet r c))) ++ [("Cost", coerceCost (rawGet r costCol))])) := rfl

theorem getCell_loadRow_cost (cols : List String) (costCol : String)
    (r : List (String × Option String)) :
    getCell (loadRow cols costCol r) "Cost" = coerceCost (rawGet r costCol) := by
  rw [loadRow_eq, getCell_accountCast_ne _ _ (by decide), getCell_addMissing,
    if_pos (hasCol_withCost_cost cols costCol r), getCell_withCost_cost]

theorem hasCol_loadRow (cols : List String) (costCol : String)
    (r : List (String × Option String)) (c : String)
    (h : c ∈ requiredCols ∨ c = "Cost") :
    hasCol (loadRow cols costCol r) c = true := by
  rw [loadRow_eq, hasCol_accountCast, hasCol_addMissing]
  rcases h with hreq | hcost
  · have hco : c ≠ "Cost" := by
      intro hh
      subst hh
      exact absurd hreq (by decide)
    by_cases hc : cols.contains c
    · rw [hasCol_withCost_other _ _ _ _ hco, hc]
      simp
    · have h1 : requiredCols.contains c = true := by simpa using hreq
      have h0 : cols.contains c = false := by simpa using hc
      rw [h1, h0]
      simp
  · subst hcost
    rw [hasCol_withCost_cost]
    simp

theorem getCell_loadRow_missing (cols : List String) (costCol : String)
    (r : List (String × Option String)) (c : String)
    (hreq : c ∈ requiredCols) (hnc : cols.contains c = false) (hna : c ≠ "AccountID") :
    getCell (loadRow cols costCol r) c = Cell.na := by
  have hco : c ≠ "Cost" := by
    intro hh
    subst hh
    exact absurd hreq (by decide)
  rw [loadRow_eq, getCell_accountCast_ne _ _ hna, getCell_addMissing,
    if_neg (by rw [hasCol_withCost_other _ _ _ _ hco, hnc]; simp)]

theorem getCell_loadRow_accountid (cols : List String) (costCol : String)
    (r : List (String × Option String)) (hnc : cols.contains "AccountID" = false) :
    getCell (loadRow cols costCol r) "AccountID" = Cell.str "<NA>" := by
  have hW : hasCol (if cols.contains "Cost"
      then cols.map (fun c =>
        if c = "Cost" then ("Cost", coerceCost (rawGet r costCol))
        else (c, normOpt (rawGet r c)))
      else cols.map (fun c =>
        if c = "Cost" then ("Cost", coerceCost (rawGet r costCol))
        else (c, normOpt (rawGet r c))) ++ [("Cost", coerceCost (rawGet r costCol))])
      "AccountID" = false := by
    rw [hasCol_withCost_other _ _ _ _ (by decide), hnc]
  have hreq : requiredCols.contains "AccountID" = true := by decide
  rw [loadRow_eq, getCell_accountCast_eq, hasCol_addMissing, getCell_addMissing, hW,
    hnc, hreq]
  simp [accountToStr]

/-- C10: when the input has both accepted cost columns, the canonical column
`MonthlyCostUSD` feeds the table's `Cost` field: the loader takes the
canonical branch whenever `MonthlyCostUSD` is present (whatever the
fallback `Cost` column holds, whose raw values are discarded), and every
loaded record's cost is the numeric coercion of its raw `MonthlyCostUSD`
value, with missing and non-numeric values becoming 0. -/
theorem canonical_cost_precedence (f : RawFrame)
    (h : f.cols.contains "MonthlyCostUSD" = true) :
    loadData f = Except.ok (f.rows.map (loadRow f.cols "MonthlyCostUSD"))
      ∧ ∀ r ∈ f.rows, getCell (loadRow f.cols "MonthlyCostUSD" r) "Cost"
          = Cell.num (((rawGet r "MonthlyCostUSD").bind parseNum).getD 0) := by
  refine ⟨?_, fun r _ => ?_⟩
  · unfold loadData
    rw [if_pos h]
  · rw [getCell_loadRow_cost]
    rfl

/-- Witness: on a frame carrying `MonthlyCostUSD = "7"` and `Cost = "999"`,
the loaded cost is 7 — the canonical column wins and the raw fallback
values are discarded. -/
theorem canonical_cost_precedence_witness :
    loadData bothCostRaw
        = Except.ok (bothCostRaw.rows.map (loadRow bothCostRaw.cols "MonthlyCostUSD"))
      ∧ getCell (loadRow bothCostRaw.cols "MonthlyCostUSD"
          [("MonthlyCostUSD", some "7"), ("Cost", some "999")]) "Cost" = Cell.num 7 := by
  refine ⟨(canonical_cost_precedence bothCostRaw (by decide)).1, ?_⟩
  rw [(canonical_cost_precedence bothCostRaw (by decide)).2
    [("MonthlyCostUSD", some "7"), ("Cost", some "999")] (by decide)]
  have hp : parseNum "7" = some 7 := by
    rw [show parseNum "7" = some (1 * ((digitsToNat ['7'] 0 : ℕ) : ℚ)) from rfl]
    norm_num [digitsToNat, (by decide : Char.toNat '7' - 48 = 7)]
  simp [rawGet, hp]

end CloudMart

namespace CloudMart

/-- C6 (amended): the loader fails exactly when the input has neither
accepted cost column. On success every record has all twelve expected
columns (the eleven required ones and `Cost`); a required column missing
from the input is synthesized as all-absent — except `AccountID`, which the
final string cast turns into the literal string "<NA>" wherever it was
absent, so a synthesized `AccountID` column holds "<NA>", not an absent
value. -/
theorem load_contract (f : RawFrame) :
    ((loadData f).isOk = true
        ↔ (f.cols.contains "MonthlyCostUSD" = true ∨ f.cols.contains "Cost" = true))
      ∧ (∀ t, loadData f = Except.ok t → ∀ r ∈ t,
          (∀ c, c ∈ requiredCols ∨ c = "Cost" → hasCol r c = true)
          ∧ (∀ c ∈ requiredCols, f.cols.contains c = false → c ≠ "AccountID" →
              getCell r c = Cell.na)
          ∧ (f.cols.contains "AccountID" = false →
              getCell r "AccountID" = Cell.str "<NA>")) := by
  constructor
  · unfold loadData
    by_cases h1 : f.cols.contains "MonthlyCostUSD"
    · rw [if_pos h1]
      exact ⟨fun _ => Or.inl h1, fun _ => rfl⟩
    · rw [if_neg h1]
      by_cases h2 : f.cols.contains "Cost"
      · rw [if_pos h2]
        exact ⟨fun _ => Or.inr h2, fun _ => rfl⟩
      · rw [if_neg h2]
        refine ⟨fun hfalse => Bool.noConfusion (hfalse : false = true), fun hor => ?_⟩
        rcases hor with hh | hh
        · exact absurd hh h1
        · exact absurd hh h2
  · intro t ht r hr
    have hcases : ∃ cc, t = f.rows.map (loadRow f.cols cc) := by
      unfold loadData at ht
      by_cases h1 : f.cols.contains "MonthlyCostUSD"
      · rw [if_pos h1] at ht
        injection ht with hteq
        exact ⟨"MonthlyCostUSD", hteq.symm⟩
      · rw [if_neg h1] at ht
        by_cases h2 : f.cols.contains "Cost"
        · rw [if_pos h2] at ht
          injection ht with hteq
          exact ⟨"Cost", hteq.symm⟩
        · rw [if_neg h2] at ht
          exact absurd ht (by simp)
    rcases hcases with ⟨cc, hteq⟩
    subst hteq
    rcases List.mem_map.mp hr with ⟨raw, _, hload⟩
    subst hload
    exact ⟨fun c hc => hasCol_loadRow _ _ _ _ hc,
      fun c hcr hnc hna => getCell_loadRow_missing _ _ _ _ hcr hnc hna,
      fun hnc => getCell_loadRow_accountid _ _ _ hnc⟩

/-- Witness for the load contract, on the frame whose only column is the
fallback cost column: the load succeeds, the synthesized `Owner` column
exists and is absent, and the synthesized `AccountID` is the string "<NA>". -/
theorem load_contract_witness :
    (loadData costOnlyRaw).isOk = true
      ∧ hasCol (loadRow costOnlyRaw.cols "Cost" [("Cost", some "5")]) "Owner" = true
      ∧ getCell (loadRow costOnlyRaw.cols "Cost" [("Cost", some "5")]) "Owner" = Cell.na
      ∧ getCell (loadRow costOnlyRaw.cols "Cost" [("Cost", some "5")]) "AccountID"
          = Cell.str "<NA>" :=
  have hload : loadData costOnlyRaw
      = Except.ok (costOnlyRaw.rows.map (loadRow costOnlyRaw.cols "Cost")) := by
    unfold loadData
    rw [if_neg (by decide), if_pos (by decide)]
  ⟨(load_contract costOnlyRaw).1.mpr (Or.inr (by decide)),
    ((load_contract costOnlyRaw).2 _ hload _ (by simp [costOnlyRaw])).1 "Owner" (Or.inl (by decide)),
    ((load_contract costOnlyRaw).2 _ hload _ (by simp [costOnlyRaw])).2.1 "Owner" (by decide)
      (by decide) (by decide),
    ((load_contract costOnlyRaw).2 _ hload _ (by simp [costOnlyRaw])).2.2 (by decide)⟩

/-- Counterexample to C6 as stated: loading a frame whose only column is
`Cost` synthesizes the missing `AccountID` column, but the final
`astype(str)` cast renders its absent value as the literal string "<NA>",
so the loaded record's `AccountID` is not absent. -/
theorem load_synthesized_counterexample :
    ¬ (∀ t, loadData costOnlyRaw = Except.ok t → ∀ r ∈ t, ∀ c ∈ requiredCols,
        costOnlyRaw.cols.contains c = false → getCell r c = Cell.na) := by
  intro h
  have hload : loadData costOnlyRaw
      = Except.ok (costOnlyRaw.rows.map (loadRow costOnlyRaw.cols "Cost")) := by
    unfold loadData
    rw [if_neg (by decide), if_pos (by decide)]
  have h2 := h _ hload (loadRow costOnlyRaw.cols "Cost" [("Cost", some "5")])
    (by simp [costOnlyRaw]) "AccountID" (by decide) (by decide)
  rw [getCell_loadRow_accountid _ _ _ (by decide)] at h2
  exact Cell.noConfusion h2

end CloudMart
